import Mathlib

/-!
Verification of the Smart-Advisor lot-based portfolio accounting and daily
valuation engine.

The repository contains two parallel implementations of the engine:

* `backend/app/services/snapshots.py` — a Decimal-based walk
  (`compute_daily`) over the dates of the price series;
* `backend/smart_advisor/pipeline.py` — a float-based walk
  (`build_daily_snapshots`) over the union of price and transaction dates,
  with FX conversion and estimated liquidation fees.

Both are embedded below.  Monetary amounts are modelled as exact rationals
(`ℚ`); dates as natural numbers (only their ordering matters); Python
exceptions as `Except String`.  Python's `Decimal("-Infinity")` peak
sentinel is modelled as `Option ℚ` with `none` standing for the sentinel,
matching the explicit sentinel test in the source.
-/

instance {ε α : Type} [DecidableEq ε] [DecidableEq α] : DecidableEq (Except ε α) := fun a b =>
  match a, b with
  | Except.ok x, Except.ok y =>
    if h : x = y then isTrue (by rw [h]) else isFalse (by intro hc; cases hc; exact h rfl)
  | Except.error x, Except.error y =>
    if h : x = y then isTrue (by rw [h]) else isFalse (by intro hc; cases hc; exact h rfl)
  | Except.ok _, Except.error _ => isFalse (by intro hc; cases hc)
  | Except.error _, Except.ok _ => isFalse (by intro hc; cases hc)

namespace SmartAdvisor

/-- Dates are opaque ordered keys; only comparison and equality are used. -/
abbrev Day := Nat

/-- Python's `str.upper()`, modelled on the character list (the source's
currency codes are ASCII). -/
def strUpper (s : String) : String :=
  ⟨s.data.map Char.toUpper⟩

namespace Snapshots

/-- `TransactionInput` from `app/services/snapshots.py`.  Transaction ids
are strings in the source and are used only as sort keys and lot labels;
they are modelled as naturals carrying the same total order. -/
structure TransactionInput where
  id : Nat
  date : Day
  type : String
  quantity : ℚ
  price : ℚ
  fee : ℚ := 0
  tax : ℚ := 0
  specific_lot_ids : Option (List Nat) := none
deriving DecidableEq, Repr

/-- `LotPosition` from `app/services/snapshots.py`. -/
structure LotPosition where
  lot_id : Nat
  quantity : ℚ
  cost_per_share : ℚ
deriving DecidableEq, Repr

/-- `DailySnapshot` from `app/services/snapshots.py`. -/
structure DailySnapshot where
  symbol : String
  date : Day
  shares_open : ℚ
  market_value_base : ℚ
  cost_basis_open_base : ℚ
  unrealized_pl_base : ℚ
  realized_pl_to_date_base : ℚ
  hypo_liquidation_pl_base : ℚ
  day_opportunity_base : ℚ
  peak_hypo_pl_to_date_base : ℚ
  drawdown_from_peak_pct : ℚ
deriving DecidableEq, Repr

/-- The sort key ordering `(t.date, t.id)` used by
`sorted(transactions, key=lambda t: (t.date, t.id))`: lexicographic on the
date and then the id. -/
def txKeyLE (a b : TransactionInput) : Prop :=
  a.date < b.date ∨ (a.date = b.date ∧ a.id ≤ b.id)

instance : DecidableRel txKeyLE := fun a b =>
  inferInstanceAs (Decidable (_ ∨ _))

instance : IsTotal TransactionInput txKeyLE :=
  ⟨fun a b => by
    rcases Nat.lt_trichotomy a.date b.date with h | h | h
    · exact Or.inl (Or.inl h)
    · rcases Nat.le_total a.id b.id with h2 | h2
      · exact Or.inl (Or.inr ⟨h, h2⟩)
      · exact Or.inr (Or.inr ⟨h.symm, h2⟩)
    · exact Or.inr (Or.inl h)⟩

instance : IsTrans TransactionInput txKeyLE :=
  ⟨fun a b c hab hbc => by
    rcases hab with h1 | ⟨h1, h2⟩ <;> rcases hbc with h3 | ⟨h3, h4⟩
    · exact Or.inl (lt_trans h1 h3)
    · exact Or.inl (lt_of_lt_of_le h1 (le_of_eq h3))
    · exact Or.inl (lt_of_le_of_lt (le_of_eq h1) h3)
    · exact Or.inr ⟨h1.trans h3, le_trans h2 h4⟩⟩

/-- `transactions_by_date.get(day, [])`: the transactions of `day`, in
`(date, id)` order.  The source sorts the whole list by `(date, id)` with a
stable sort and groups by date; the group of a date is therefore exactly the
transactions of that date stable-sorted by the key, computed here as
filter-then-stable-sort. -/
def txsOn (transactions : List TransactionInput) (day : Day) : List TransactionInput :=
  List.insertionSort txKeyLE (transactions.filter (fun t => t.date == day))

/-- `_pop_lot`: FIFO pops the front (`lots.pop(0)`), LIFO pops the back
(`lots.pop()`), and any other method falls through to the front pop.
Returns `none` exactly when the list is empty (the caller's loop guard
`remaining > 0 and lots`). -/
def popLot (lots : List LotPosition) (method : String) : Option (LotPosition × List LotPosition) :=
  if method = "FIFO" then
    match lots with
    | [] => none
    | l :: ls => some (l, ls)
  else if method = "LIFO" then
    match lots.getLast? with
    | none => none
    | some l => some (l, lots.dropLast)
  else
    match lots with
    | [] => none
    | l :: ls => some (l, ls)

/-- The SELL consumption loop of `compute_daily`:

    while remaining > 0 and lots:
        lot = _pop_lot(lots, lot_method)
        take_qty = min(lot.quantity, remaining)
        lot_cost_total += take_qty * lot.cost_per_share
        lot.quantity -= take_qty
        remaining -= take_qty
        if lot.quantity > 0:
            if lot_method == "FIFO": lots.insert(0, lot)
            else: lots.append(lot)

Each iteration pops one lot, and a partially-consumed lot is re-inserted
only when the request was fully satisfied (`remaining` becomes `0`), so the
loop runs at most `lots.length + 1` iterations; `fuel` is instantiated with
that bound at the call site.  Returns `(remaining, lot_cost_total, lots)`. -/
def sellLoop (method : String) : Nat → ℚ → List LotPosition → ℚ → ℚ × ℚ × List LotPosition
  | 0, remaining, lots, lot_cost_total => (remaining, lot_cost_total, lots)
  | fuel + 1, remaining, lots, lot_cost_total =>
    if remaining > 0 then
      match popLot lots method with
      | none => (remaining, lot_cost_total, lots)
      | some (lot, rest) =>
        let take_qty := min lot.quantity remaining
        let cost := lot_cost_total + take_qty * lot.cost_per_share
        let lotq := lot.quantity - take_qty
        let remaining' := remaining - take_qty
        let lots' :=
          if lotq > 0 then
            if method = "FIFO" then { lot with quantity := lotq } :: rest
            else rest ++ [{ lot with quantity := lotq }]
          else rest
        sellLoop method fuel remaining' lots' cost
    else (remaining, lot_cost_total, lots)

/-- Walk-forward state of `compute_daily`: the open lots, the accumulated
realized P/L, the running peak (`none` models the `Decimal("-Infinity")`
sentinel before the first observation) and the snapshots emitted so far. -/
structure WalkState where
  lots : List LotPosition
  realized_pl : ℚ
  peak_hypo : Option ℚ
  snapshots : List DailySnapshot
deriving DecidableEq, Repr

/-- Application of one transaction to the ledger, from the inner `for tx`
loop of `compute_daily`.  A BUY divides by `tx.quantity`, which for
`Decimal` raises on a zero quantity — modelled as `Except.error`.  A SELL
consumes lots via `sellLoop` and accumulates realized P/L; other types are
unhandled placeholders. -/
def applyTx (lot_method : String) (st : WalkState) (tx : TransactionInput) : Except String WalkState :=
  if tx.type = "BUY" then
    if tx.quantity = 0 then
      Except.error "decimal division by zero"
    else
      let cost := tx.quantity * tx.price + tx.fee + tx.tax
      Except.ok { st with
        lots := st.lots ++ [{ lot_id := tx.id, quantity := tx.quantity,
                              cost_per_share := cost / tx.quantity }] }
  else if tx.type = "SELL" then
    let q0 : ℚ := if tx.quantity < 0 then -tx.quantity else tx.quantity
    let qty_to_close := |q0|
    let proceeds := qty_to_close * tx.price - tx.fee - tx.tax
    let r := sellLoop lot_method (st.lots.length + 1) qty_to_close st.lots 0
    Except.ok { st with lots := r.2.2,
                        realized_pl := st.realized_pl + (proceeds - r.2.1) }
  else
    Except.ok st

/-- Sequential application of a day's transactions. -/
def applyTxs (lot_method : String) (st : WalkState) : List TransactionInput → Except String WalkState
  | [] => Except.ok st
  | tx :: rest => do
    let st' ← applyTx lot_method st tx
    applyTxs lot_method st' rest

/-- One iteration of the `for day in sorted(price_series.keys())` loop of
`compute_daily`: apply the day's transactions, derive the valuation
metrics, update the peak and drawdown, and append the day's snapshot. -/
def dayStep (symbol lot_method : String) (transactions : List TransactionInput)
    (price_series : List (Day × ℚ)) (st : WalkState) (day : Day) : Except String WalkState := do
  let day_price := (List.lookup day price_series).getD 0
  let st ← applyTxs lot_method st (txsOn transactions day)
  let shares_open := (st.lots.map LotPosition.quantity).sum
  let cost_basis_open := (st.lots.map (fun l => l.quantity * l.cost_per_share)).sum
  let market_value := shares_open * day_price
  let unrealized := market_value - cost_basis_open
  let hypo0 := st.realized_pl + (market_value - cost_basis_open)
  let hypo_liquidation := if shares_open = 0 then st.realized_pl else hypo0
  let day_opp : ℚ := if shares_open = 0 then 0 else max 0 (hypo_liquidation - st.realized_pl)
  let peak1 := match st.peak_hypo with
    | none => hypo_liquidation
    | some p => p
  let peak_hypo := max peak1 hypo_liquidation
  let drawdown : ℚ := if peak_hypo ≠ 0 then (hypo_liquidation - peak_hypo) / peak_hypo * 100 else 0
  return { st with
    peak_hypo := some peak_hypo,
    snapshots := st.snapshots ++ [{
      symbol := symbol
      date := day
      shares_open := shares_open
      market_value_base := market_value
      cost_basis_open_base := cost_basis_open
      unrealized_pl_base := unrealized
      realized_pl_to_date_base := st.realized_pl
      hypo_liquidation_pl_base := hypo_liquidation
      day_opportunity_base := day_opp
      peak_hypo_pl_to_date_base := peak_hypo
      drawdown_from_peak_pct := drawdown }] }

/-- The date loop of `compute_daily` as a fold over the sorted price dates. -/
def walk (symbol lot_method : String) (transactions : List TransactionInput)
    (price_series : List (Day × ℚ)) : WalkState → List Day → Except String WalkState
  | st, [] => Except.ok st
  | st, d :: ds => do
    let st' ← dayStep symbol lot_method transactions price_series st d
    walk symbol lot_method transactions price_series st' ds

/-- `compute_daily` from `app/services/snapshots.py`.  The price series is a
finite map from dates to prices, represented as an association list (a
Python `dict` has unique keys; theorems that depend on map semantics assume
`Nodup` keys). -/
def compute_daily (symbol : String) (transactions : List TransactionInput)
    (price_series : List (Day × ℚ)) (lot_method : String := "FIFO") :
    Except String (List DailySnapshot) := do
  let days := List.insertionSort (· ≤ ·) (price_series.map Prod.fst)
  let final ← walk symbol lot_method transactions price_series
    { lots := [], realized_pl := 0, peak_hypo := none, snapshots := [] } days
  return final.snapshots

/-- Per-snapshot facts established by the valuation step of
`compute_daily`: the day's hypothetical P/L never exceeds the running
peak, and the drawdown field is the division-guarded percentage. -/
def SnapInv (s : DailySnapshot) : Prop :=
  s.hypo_liquidation_pl_base ≤ s.peak_hypo_pl_to_date_base ∧
  (s.peak_hypo_pl_to_date_base ≠ 0 →
    s.drawdown_from_peak_pct =
      (s.hypo_liquidation_pl_base - s.peak_hypo_pl_to_date_base)
        / s.peak_hypo_pl_to_date_base * 100) ∧
  (s.peak_hypo_pl_to_date_base = 0 → s.drawdown_from_peak_pct = 0)

/-- Relation between consecutive snapshots: the peak recurrence
`peak(n+1) = max (peak n) (hypo (n+1))`, and hence monotonicity. -/
def peakStep (a b : DailySnapshot) : Prop :=
  b.peak_hypo_pl_to_date_base =
    max a.peak_hypo_pl_to_date_base b.hypo_liquidation_pl_base ∧
  a.peak_hypo_pl_to_date_base ≤ b.peak_hypo_pl_to_date_base

/-- Invariant carried along the walk of `compute_daily`, tying the running
peak state to the emitted snapshot sequence. -/
def WalkInv (st : WalkState) : Prop :=
  (st.peak_hypo = none → st.snapshots = []) ∧
  (∀ p, st.peak_hypo = some p →
    ∃ s, st.snapshots.getLast? = some s ∧ s.peak_hypo_pl_to_date_base = p) ∧
  (∀ s0, st.snapshots.head? = some s0 →
    s0.peak_hypo_pl_to_date_base = s0.hypo_liquidation_pl_base) ∧
  List.Chain' peakStep st.snapshots ∧
  (∀ s ∈ st.snapshots, SnapInv s)

end Snapshots

namespace Pipeline

/-- `FXRateProvider` from `smart_advisor/fx.py`: rates keyed by
`(date, from_currency, to_currency)`, uppercased currencies. -/
structure FXRateProvider where
  rates : List ((Day × String × String) × ℚ)
  base_currency : String := "USD"
deriving Repr

/-- `FXRateProvider.rate`: `1.0` when the uppercased currencies match,
otherwise an exact-key table lookup; a missing key raises `KeyError`
(modelled as `Except.error`).  `to_currency or self.base_currency` is
modelled by the `Option`'s default (the falsy-empty-string case of `or` is
never exercised by the pipeline, which always passes a concrete currency). -/
def FXRateProvider.rate (fx : FXRateProvider) (d : Day) (from_currency : String)
    (to_currency : Option String := none) : Except String ℚ :=
  let target := to_currency.getD fx.base_currency
  if strUpper from_currency = strUpper target then
    Except.ok 1
  else
    match List.lookup (d, strUpper from_currency, strUpper target) fx.rates with
    | none => Except.error ("Missing FX rate for " ++ from_currency ++ "->" ++ target ++ " on " ++ toString d)
    | some r => Except.ok r

/-- `Transaction` from `smart_advisor/models.py`. -/
structure Transaction where
  date : Day
  symbol : String
  type : String
  quantity : ℚ
  price : ℚ
  fee : ℚ := 0
  tax : ℚ := 0
  currency : String := "USD"
deriving DecidableEq, Repr

/-- `Transaction.normalized_type`: the upper-cased transaction type. -/
def Transaction.normalized_type (t : Transaction) : String :=
  strUpper t.type

/-- `PriceBar` from `smart_advisor/models.py`. -/
structure PriceBar where
  date : Day
  symbol : String
  adj_close : ℚ
  currency : String := "USD"
deriving DecidableEq, Repr

/-- `_Lot` from `smart_advisor/pipeline.py`. -/
structure PipeLot where
  quantity : ℚ
  cost_per_share_base : ℚ
deriving DecidableEq, Repr

/-- `DailySnapshot` from `smart_advisor/models.py`. -/
structure DailySnapshot where
  date : Day
  symbol : String
  shares_open : ℚ
  market_value_base : ℚ
  cost_basis_open_base : ℚ
  unrealized_pl_base : ℚ
  realized_pl_to_date_base : ℚ
  hypo_liquidation_pl_base : ℚ
  day_opportunity_base : ℚ
  peak_hypo_pl_to_date_base : ℚ
  drawdown_from_peak_pct : ℚ
  fx_rate : ℚ
  price_base : ℚ
  lot_count : Nat
  notes : Option String := none
deriving DecidableEq, Repr

/-- `_get_price`: `price_map[d]` where `price_map = {bar.date: bar}` (a dict
comprehension keeps the last bar per date, hence the reversed search);
raises `KeyError("Missing price for ...")` when the date is absent. -/
def getPrice (bars : List PriceBar) (d : Day) : Except String PriceBar :=
  match bars.reverse.find? (fun b => b.date == d) with
  | none => Except.error ("Missing price for " ++ toString d)
  | some bar => Except.ok bar

/-- `rate = 1.0; if fx_provider: rate = fx_provider.rate(...)`: the
conversion rate used for a transaction or price bar, `1` without a
provider. -/
def fxRateOrOne (fx_provider : Option FXRateProvider) (d : Day)
    (currency base_currency : String) : Except String ℚ :=
  match fx_provider with
  | none => Except.ok 1
  | some fx => fx.rate d currency (some base_currency)

/-- The SELL consumption loop of `build_daily_snapshots`:

    while qty_to_close > 0 and lots:
        lot = lots[0]
        close_qty = min(qty_to_close, lot.quantity)
        cost_piece = close_qty * lot.cost_per_share_base
        lot.quantity -= close_qty
        cost_removed += cost_piece
        qty_to_close -= close_qty
        if lot.quantity == 0:
            lots.popleft()

Each iteration either pops the head lot or leaves a partially-consumed head
with the request fully satisfied, so at most `lots.length + 1` iterations
run; `fuel` is instantiated with that bound at the call site.  Returns
`(qty_to_close, cost_removed, lots)`. -/
def pipeSellLoop : Nat → ℚ → List PipeLot → ℚ → ℚ × ℚ × List PipeLot
  | 0, qty_to_close, lots, cost_removed => (qty_to_close, cost_removed, lots)
  | fuel + 1, qty_to_close, lots, cost_removed =>
    if qty_to_close > 0 then
      match lots with
      | [] => (qty_to_close, cost_removed, lots)
      | lot :: rest =>
        let close_qty := min qty_to_close lot.quantity
        let cost_removed' := cost_removed + close_qty * lot.cost_per_share_base
        let lotq := lot.quantity - close_qty
        let qty' := qty_to_close - close_qty
        if lotq = 0 then pipeSellLoop fuel qty' rest cost_removed'
        else pipeSellLoop fuel qty' ({ lot with quantity := lotq } :: rest) cost_removed'
    else (qty_to_close, cost_removed, lots)

/-- Loop-carried per-symbol state of `build_daily_snapshots`: the lot deque,
realized P/L, the peak (`none` models the `float("-inf")` sentinel), and the
running `shares_open` / `cost_basis_open` variables. -/
structure SymState where
  lots : List PipeLot
  realized_pl : ℚ
  peak_hypo : Option ℚ
  shares_open : ℚ
  cost_basis_open : ℚ
deriving Repr

/-- The body of the per-transaction `while` loop of `build_daily_snapshots`. -/
def pipeApplyTx (fx_provider : Option FXRateProvider) (base_currency : String)
    (st : SymState) (tx : Transaction) : Except String SymState := do
  let t_type := tx.normalized_type
  let qty := |tx.quantity|
  let rate ← fxRateOrOne fx_provider tx.date tx.currency base_currency
  let total_fee_tax := (tx.fee + tx.tax) * rate
  if t_type = "BUY" then
    let total_cost_base := qty * tx.price * rate + total_fee_tax
    let cost_per_share := if qty ≠ 0 then total_cost_base / qty else 0
    return { st with
      lots := st.lots ++ [{ quantity := qty, cost_per_share_base := cost_per_share }],
      shares_open := st.shares_open + qty,
      cost_basis_open := st.cost_basis_open + total_cost_base }
  else if t_type = "SELL" then
    let proceeds_base := qty * tx.price * rate - total_fee_tax
    let r := pipeSellLoop (st.lots.length + 1) qty st.lots 0
    return { st with
      lots := r.2.2,
      shares_open := st.shares_open - qty,
      cost_basis_open := st.cost_basis_open - r.2.1,
      realized_pl := st.realized_pl + (proceeds_base - r.2.1) }
  else
    return st

/-- Sequential application of the transactions of one day. -/
def pipeApplyTxs (fx : Option FXRateProvider) (base : String) (st : SymState) :
    List Transaction → Except String SymState
  | [] => Except.ok st
  | tx :: rest => do
    let st' ← pipeApplyTx fx base st tx
    pipeApplyTxs fx base st' rest

/-- One iteration of the `for current_date in timeline_dates` loop: consume
the leading transactions dated `current_date` (the `tx_index` pointer over
the date-sorted transaction list), fetch and convert the day's price, clamp
the running position, derive the metrics, update the peak, and emit the
day's snapshot.  Returns the new state, the not-yet-consumed transactions
and the snapshot. -/
def pipeDayStep (fx : Option FXRateProvider) (base : String) (bps flat : ℚ)
    (symbol : String) (bars : List PriceBar) (st : SymState)
    (txs : List Transaction) (current_date : Day) :
    Except String (SymState × List Transaction × DailySnapshot) := do
  let todays := txs.takeWhile (fun tx => tx.date == current_date)
  let rest := txs.dropWhile (fun tx => tx.date == current_date)
  let st ← pipeApplyTxs fx base st todays
  let bar ← getPrice bars current_date
  let rate ← fxRateOrOne fx bar.date bar.currency base
  let price_base := bar.adj_close * rate
  let shares_open := max st.shares_open 0
  let cost_basis_open := max st.cost_basis_open 0
  let market_value := shares_open * price_base
  let unrealized_pl := market_value - cost_basis_open
  let hypo_proceeds : ℚ :=
    if shares_open = 0 then 0
    else max (market_value * (1 - bps / 10000) - flat) 0
  let hypo_pl := st.realized_pl + (hypo_proceeds - cost_basis_open)
  let day_opportunity := max 0 (hypo_pl - st.realized_pl)
  let peak_hypo := match st.peak_hypo with
    | none => hypo_pl
    | some p => max p hypo_pl
  let drawdown : ℚ := if peak_hypo = 0 then 0 else (hypo_pl - peak_hypo) / peak_hypo
  return ({ st with
      peak_hypo := some peak_hypo,
      shares_open := shares_open,
      cost_basis_open := cost_basis_open },
    rest,
    { date := current_date
      symbol := symbol
      shares_open := shares_open
      market_value_base := market_value
      cost_basis_open_base := cost_basis_open
      unrealized_pl_base := unrealized_pl
      realized_pl_to_date_base := st.realized_pl
      hypo_liquidation_pl_base := hypo_pl
      day_opportunity_base := day_opportunity
      peak_hypo_pl_to_date_base := peak_hypo
      drawdown_from_peak_pct := drawdown
      fx_rate := rate
      price_base := price_base
      lot_count := st.lots.length })

/-- The timeline loop for one symbol, accumulating its snapshots. -/
def pipeWalk (fx : Option FXRateProvider) (base : String) (bps flat : ℚ)
    (symbol : String) (bars : List PriceBar) :
    SymState → List Transaction → List Day → List DailySnapshot →
    Except String (List DailySnapshot)
  | _, _, [], acc => Except.ok acc
  | st, txs, d :: ds, acc => do
    let r ← pipeDayStep fx base bps flat symbol bars st txs d
    pipeWalk fx base bps flat symbol bars r.1 r.2.1 ds (acc ++ [r.2.2])

/-- The stable-by-date sort key of `sorted(tx_by_symbol.get(symbol, []),
key=lambda tx: tx.date)`. -/
def txDateLE (a b : Transaction) : Prop :=
  a.date ≤ b.date

instance : DecidableRel txDateLE := fun a b =>
  inferInstanceAs (Decidable (_ ≤ _))

/-- The final sort key `lambda s: (s.symbol, s.date)`; Python compares the
symbol strings by code points, modelled as the character-list order. -/
def snapKeyLE (a b : DailySnapshot) : Prop :=
  a.symbol.data < b.symbol.data ∨ (a.symbol = b.symbol ∧ a.date ≤ b.date)

instance : DecidableRel snapKeyLE := fun a b =>
  inferInstanceAs (Decidable (_ ∨ _))

/-- The `for symbol, symbol_prices in price_by_symbol.items()` loop;
`price_by_symbol` preserves first-occurrence symbol order, each group
preserves input order. -/
def symbolLoop (transactions : List Transaction) (prices : List PriceBar)
    (fx : Option FXRateProvider) (base : String) (bps flat : ℚ) :
    List String → List DailySnapshot → Except String (List DailySnapshot)
  | [], acc => Except.ok acc
  | sym :: syms, acc => do
    let symbol_prices := prices.filter (fun b => b.symbol == sym)
    let symbol_transactions :=
      List.insertionSort txDateLE (transactions.filter (fun t => t.symbol == sym))
    let timeline_dates :=
      List.insertionSort (fun a b => a ≤ b)
        ((symbol_prices.map PriceBar.date ++ symbol_transactions.map Transaction.date).eraseDups)
    if timeline_dates.isEmpty then
      symbolLoop transactions prices fx base bps flat syms acc
    else do
      let snaps ← pipeWalk fx base bps flat sym symbol_prices
        { lots := [], realized_pl := 0, peak_hypo := none,
          shares_open := 0, cost_basis_open := 0 }
        symbol_transactions timeline_dates []
      symbolLoop transactions prices fx base bps flat syms (acc ++ snaps)

/-- `build_daily_snapshots` from `smart_advisor/pipeline.py`. -/
def build_daily_snapshots (transactions : List Transaction) (prices : List PriceBar)
    (fx_provider : Option FXRateProvider := none) (base_currency : String := "USD")
    (estimated_sell_fee_bps : ℚ := 0) (estimated_sell_fee_flat : ℚ := 0) :
    Except String (List DailySnapshot) := do
  let symbols := (prices.map PriceBar.symbol).eraseDups
  let snaps ← symbolLoop transactions prices fx_provider base_currency
    estimated_sell_fee_bps estimated_sell_fee_flat symbols []
  return List.insertionSort snapKeyLE snaps

/-- Per-snapshot drawdown fact established by `build_daily_snapshots`: the
drawdown field is the division-guarded *unscaled fraction*
`(current − peak) / peak`. -/
def PipeSnapInv (s : DailySnapshot) : Prop :=
  (s.peak_hypo_pl_to_date_base ≠ 0 →
    s.drawdown_from_peak_pct =
      (s.hypo_liquidation_pl_base - s.peak_hypo_pl_to_date_base)
        / s.peak_hypo_pl_to_date_base) ∧
  (s.peak_hypo_pl_to_date_base = 0 → s.drawdown_from_peak_pct = 0)

end Pipeline

/-! ## Concrete inputs used by the claim theorems -/

namespace Inputs

open Pipeline Snapshots

/-- Golden scenario transactions: BUY 100 @ 10.00 fee 5 on day 1,
BUY 50 @ 12.00 fee 5 on day 2. -/
def goldenTxs : List Transaction :=
  [{ date := 1, symbol := "AAA", type := "BUY", quantity := 100, price := 10, fee := 5 },
   { date := 2, symbol := "AAA", type := "BUY", quantity := 50, price := 12, fee := 5 }]

/-- Golden scenario prices, with 14.00 on day 3 (no transaction that day). -/
def goldenPrices : List PriceBar :=
  [{ date := 1, symbol := "AAA", adj_close := 10 },
   { date := 2, symbol := "AAA", adj_close := 12 },
   { date := 3, symbol := "AAA", adj_close := 14 }]

/-- A single BUY whose hypothetical P/L later turns negative. -/
def negTxs : List TransactionInput :=
  [{ id := 1, date := 1, type := "BUY", quantity := 100, price := 10 }]

/-- A price that first doubles the position and then collapses. -/
def negPrices : List (Day × ℚ) := [(1, 20), (2, 1)]

/-- Pipeline input whose hypothetical P/L falls below a positive peak. -/
def fracTxs : List Transaction :=
  [{ date := 1, symbol := "BBB", type := "BUY", quantity := 10, price := 10 }]

def fracPrices : List PriceBar :=
  [{ date := 1, symbol := "BBB", adj_close := 20 },
   { date := 2, symbol := "BBB", adj_close := 10 }]

/-- Two lots (ids 1 and 2), then a SELL naming only lot 2 under SPEC_ID. -/
def specIdTxs : List TransactionInput :=
  [{ id := 1, date := 1, type := "BUY", quantity := 10, price := 1 },
   { id := 2, date := 1, type := "BUY", quantity := 10, price := 2 },
   { id := 3, date := 2, type := "SELL", quantity := 5, price := 3,
     specific_lot_ids := some [2] }]

def specIdPrices : List (Day × ℚ) := [(1, 1), (2, 3)]

/-- The SPEC_ID SELL of `specIdTxs`, applied directly to the two-lot ledger. -/
def specIdSell : TransactionInput :=
  { id := 3, date := 2, type := "SELL", quantity := 5, price := 3,
    specific_lot_ids := some [2] }

def specIdLedger : WalkState :=
  { lots := [{ lot_id := 1, quantity := 10, cost_per_share := 1 },
             { lot_id := 2, quantity := 10, cost_per_share := 2 }],
    realized_pl := 0, peak_hypo := none, snapshots := [] }

/-- An FX provider with no table entries at all. -/
def fxEmpty : FXRateProvider := { rates := [] }

/-- A transaction denominated in EUR with no FX table entry for its date. -/
def eurTxs : List Transaction :=
  [{ date := 1, symbol := "EEE", type := "BUY", quantity := 10, price := 10,
     currency := "EUR" }]

def eurPrices : List PriceBar :=
  [{ date := 1, symbol := "EEE", adj_close := 10 }]

/-- The two snapshots of the `negTxs`/`negPrices` run. -/
def negSnap1 : Snapshots.DailySnapshot :=
  { symbol := "AAA", date := 1, shares_open := 100, market_value_base := 2000,
    cost_basis_open_base := 1000, unrealized_pl_base := 1000,
    realized_pl_to_date_base := 0, hypo_liquidation_pl_base := 1000,
    day_opportunity_base := 1000, peak_hypo_pl_to_date_base := 1000,
    drawdown_from_peak_pct := 0 }

def negSnap2 : Snapshots.DailySnapshot :=
  { symbol := "AAA", date := 2, shares_open := 100, market_value_base := 100,
    cost_basis_open_base := 1000, unrealized_pl_base := -900,
    realized_pl_to_date_base := 0, hypo_liquidation_pl_base := -900,
    day_opportunity_base := 0, peak_hypo_pl_to_date_base := 1000,
    drawdown_from_peak_pct := -190 }

/-- The two snapshots of the `fracTxs`/`fracPrices` pipeline run. -/
def fracSnap1 : Pipeline.DailySnapshot :=
  { date := 1, symbol := "BBB", shares_open := 10, market_value_base := 200,
    cost_basis_open_base := 100, unrealized_pl_base := 100,
    realized_pl_to_date_base := 0, hypo_liquidation_pl_base := 100,
    day_opportunity_base := 100, peak_hypo_pl_to_date_base := 100,
    drawdown_from_peak_pct := 0, fx_rate := 1, price_base := 20,
    lot_count := 1 }

def fracSnap2 : Pipeline.DailySnapshot :=
  { date := 2, symbol := "BBB", shares_open := 10, market_value_base := 100,
    cost_basis_open_base := 100, unrealized_pl_base := 0,
    realized_pl_to_date_base := 0, hypo_liquidation_pl_base := 0,
    day_opportunity_base := 0, peak_hypo_pl_to_date_base := 100,
    drawdown_from_peak_pct := -1, fx_rate := 1, price_base := 10,
    lot_count := 1 }

end Inputs

open Snapshots Pipeline Inputs

set_option maxRecDepth 40000 in
/-- **C1.** Golden scenario: two BUYs (100 @ 10.00 fee 5 on day 1,
50 @ 12.00 fee 5 on day 2) and a price of 14.00 on day 3 with no
transaction that day, run with a flat estimated exit fee of 5 and no
basis-point fee: the day-3 snapshot has `shares_open = 150`,
`cost_basis_open = 1610`, `market_value = 2100`, `unrealized = 490`,
`realized = 0`, hypothetical liquidation P/L `= 485` and
`day_opportunity = 485`. -/
theorem c1_golden_scenario :
    (build_daily_snapshots goldenTxs goldenPrices none "USD" 0 5).map
      (fun l => l.get? 2) =
    Except.ok (some
      { date := 3, symbol := "AAA", shares_open := 150,
        market_value_base := 2100, cost_basis_open_base := 1610,
        unrealized_pl_base := 490, realized_pl_to_date_base := 0,
        hypo_liquidation_pl_base := 485, day_opportunity_base := 485,
        peak_hypo_pl_to_date_base := 485, drawdown_from_peak_pct := 0,
        fx_rate := 1, price_base := 14, lot_count := 2, notes := none }) := by
  with_unfolding_all decide

set_option maxRecDepth 40000 in
/-- **C3, counterexample.** The snapshot for day 2 of `negTxs`/`negPrices`
has a strictly positive peak (1000) but a drawdown of −190, outside
[−100, 0]: the claimed invariant fails because the hypothetical P/L can be
negative while the peak is positive. -/
theorem c3_counterexample :
    (compute_daily "AAA" negTxs negPrices "FIFO").map
      (fun l => (l.get? 1).map (fun s =>
        (s.peak_hypo_pl_to_date_base, s.drawdown_from_peak_pct))) =
      Except.ok (some (1000, -190)) ∧
    (0 : ℚ) < 1000 ∧ (-190 : ℚ) < -100 := by
  refine ⟨by with_unfolding_all decide, by norm_num, by norm_num⟩

set_option maxRecDepth 40000 in
/-- **C4, counterexample.** In `build_daily_snapshots` the emitted drawdown
is the unscaled fraction `(current − peak) / peak`, not the percentage
`(current − peak) / peak × 100` the claim states for every emitted
snapshot: on day 2 of `fracTxs`/`fracPrices` the peak is 100, the current
hypothetical P/L is 0, the emitted drawdown is −1, and the claimed formula
gives −100. -/
theorem c4_counterexample :
    (build_daily_snapshots fracTxs fracPrices none "USD" 0 0).map
      (fun l => (l.get? 1).map (fun s =>
        (s.hypo_liquidation_pl_base, s.peak_hypo_pl_to_date_base,
         s.drawdown_from_peak_pct))) =
      Except.ok (some (0, 100, -1)) ∧
    ((-1 : ℚ) ≠ ((0 : ℚ) - 100) / 100 * 100) := by
  refine ⟨by with_unfolding_all decide, by norm_num⟩

set_option maxRecDepth 40000 in
/-- **C5.** Under the SPEC_ID policy the SELL consumes from the *front* of
the lot queue and ignores `specific_lot_ids` entirely: selling 5 with
`specific_lot_ids = [2]` against lots 1 (10 @ 1) and 2 (10 @ 2) shrinks
lot 1 — which is *not* in the caller-identified set — to quantity 5 and
leaves lot 2 untouched, and the day-2 cost basis is 25 (front-lot cost
removed) instead of the 20 the claimed SPEC_ID semantics would give. -/
theorem c5_spec_id_ignored :
    applyTx "SPEC_ID" specIdLedger specIdSell =
      Except.ok { lots := [{ lot_id := 2, quantity := 10, cost_per_share := 2 },
                           { lot_id := 1, quantity := 5, cost_per_share := 1 }],
                  realized_pl := 10, peak_hypo := none, snapshots := [] } ∧
    (compute_daily "CCC" specIdTxs specIdPrices "SPEC_ID").map
      (fun l => (l.get? 1).map (fun s => s.cost_basis_open_base)) =
      Except.ok (some 25) := by
  refine ⟨by with_unfolding_all decide, by with_unfolding_all decide⟩

/-! ## C7: FX rate contract and propagation -/

/-- **C7.** The FX rate lookup returns exactly 1 whenever the two
(uppercased) currencies are equal; when they differ and the table has no
entry for the exact `(date, from, to)` key it fails with the
rate-not-found error — never a nearby date or default rate — and such a
failure propagates out of `build_daily_snapshots` as the error result,
aborting the whole recomputation rather than being absorbed. -/
theorem c7_fx_exact_rate_or_error :
    (∀ (fx : FXRateProvider) (d : Day) (c t : String),
        strUpper c = strUpper t → fx.rate d c (some t) = Except.ok 1) ∧
    (∀ (fx : FXRateProvider) (d : Day) (c t : String),
        strUpper c ≠ strUpper t →
        List.lookup (d, strUpper c, strUpper t) fx.rates = none →
        fx.rate d c (some t) =
          Except.error ("Missing FX rate for " ++ c ++ "->" ++ t ++ " on " ++ toString d)) ∧
    build_daily_snapshots eurTxs eurPrices (some fxEmpty) "USD" 0 0 =
      Except.error ("Missing FX rate for EUR->USD on 1") := by
  refine ⟨?_, ?_, ?_⟩
  · intro fx d c t h
    simp [FXRateProvider.rate, Option.getD, h]
  · intro fx d c t h h2
    simp [FXRateProvider.rate, Option.getD, h, h2]
  · with_unfolding_all decide

/-- Witness for C7 at concrete currencies: a matching pair yields rate 1,
a missing pair yields the rate-not-found error. -/
theorem c7_fx_exact_rate_or_error_witness :
    FXRateProvider.rate { rates := [] } 7 "usd" (some "USD") = Except.ok 1 ∧
    FXRateProvider.rate { rates := [] } 7 "EUR" (some "USD") =
      Except.error ("Missing FX rate for " ++ "EUR" ++ "->" ++ "USD" ++ " on " ++ toString 7) :=
  ⟨c7_fx_exact_rate_or_error.1 _ 7 "usd" "USD" (by with_unfolding_all decide),
   c7_fx_exact_rate_or_error.2.1 _ 7 "EUR" "USD" (by with_unfolding_all decide) (by decide)⟩

/-! ## Helper lemmas about the Decimal engine's walk -/

theorem except_bind_ok {α β : Type} (a : α) (f : α → Except String β) :
    (Except.ok a >>= f) = f a := rfl

theorem except_bind_error {α β : Type} (msg : String) (f : α → Except String β) :
    ((Except.error msg : Except String α) >>= f) = Except.error msg := rfl

theorem except_pure {α : Type} (a : α) : (pure a : Except String α) = Except.ok a := rfl

/-- `_pop_lot` yields `none` only on the empty list. -/
theorem popLot_eq_none {lots : List LotPosition} {m : String}
    (h : popLot lots m = none) : lots = [] := by
  unfold popLot at h
  split_ifs at h
  · cases lots with
    | nil => rfl
    | cons a as => simp at h
  · cases e : lots.getLast? with
    | none => exact List.getLast?_eq_none_iff.mp e
    | some b => rw [e] at h; simp at h
  · cases lots with
    | nil => rfl
    | cons a as => simp at h

/-- `_pop_lot` removes exactly one lot: the input is a permutation of the
popped lot consed onto the rest. -/
theorem popLot_perm {lots : List LotPosition} {m : String} {x : LotPosition}
    {xs : List LotPosition} (h : popLot lots m = some (x, xs)) :
    List.Perm lots (x :: xs) := by
  unfold popLot at h
  split_ifs at h
  · cases lots with
    | nil => simp at h
    | cons a as =>
      simp only [Option.some.injEq, Prod.mk.injEq] at h
      obtain ⟨h1, h2⟩ := h
      subst h1; subst h2
      exact List.Perm.refl _
  · cases e : lots.getLast? with
    | none => rw [e] at h; simp at h
    | some b =>
      rw [e] at h
      simp only [Option.some.injEq, Prod.mk.injEq] at h
      obtain ⟨h1, h2⟩ := h
      have hd : lots.dropLast ++ [b] = lots :=
        List.dropLast_append_getLast? b (Option.mem_def.mpr e)
      have hp := List.perm_append_singleton b lots.dropLast
      rw [hd] at hp
      rw [← h1, ← h2]
      exact hp
  · cases lots with
    | nil => simp at h
    | cons a as =>
      simp only [Option.some.injEq, Prod.mk.injEq] at h
      obtain ⟨h1, h2⟩ := h
      subst h1; subst h2
      exact List.Perm.refl _

/-- When the requested quantity exceeds the total open quantity and all lot
quantities are nonnegative, the SELL loop consumes every lot, removes the
total cost, and returns the positive shortfall in `remaining` — with any
fuel bound of at least the number of lots. -/
theorem sellLoop_oversell_general (m : String) :
    ∀ (fuel : Nat) (lots : List LotPosition) (rem acc : ℚ),
      lots.length ≤ fuel →
      (∀ l ∈ lots, 0 ≤ l.quantity) →
      (lots.map LotPosition.quantity).sum < rem →
      sellLoop m fuel rem lots acc =
        (rem - (lots.map LotPosition.quantity).sum,
         acc + (lots.map (fun l => l.quantity * l.cost_per_share)).sum, []) := by
  intro fuel
  induction fuel with
  | zero =>
    intro lots rem acc hlen hq hsum
    have hn : lots = [] := List.length_eq_zero.mp (Nat.le_zero.mp hlen)
    subst hn
    simp [sellLoop]
  | succ n ih =>
    intro lots rem acc hlen hq hsum
    have hnn : 0 ≤ (lots.map LotPosition.quantity).sum := by
      refine List.sum_nonneg ?_
      intro y hy
      obtain ⟨l, hl, rfl⟩ := List.mem_map.mp hy
      exact hq l hl
    have hrem : (0 : ℚ) < rem := lt_of_le_of_lt hnn hsum
    cases e : popLot lots m with
    | none =>
      have hn := popLot_eq_none e
      subst hn
      simp [sellLoop, e, hrem]
    | some pr =>
      obtain ⟨x, xs⟩ := pr
      have hperm := popLot_perm e
      have hlen2 : lots.length = xs.length + 1 := by
        have hpl := hperm.length_eq
        simpa using hpl
      have hmem : ∀ l ∈ x :: xs, 0 ≤ l.quantity := fun l hl => hq l (hperm.mem_iff.mpr hl)
      have hsum_eq : (lots.map LotPosition.quantity).sum =
          x.quantity + (xs.map LotPosition.quantity).sum := by
        rw [(hperm.map LotPosition.quantity).sum_eq]
        simp
      have hcost_eq : (lots.map (fun l => l.quantity * l.cost_per_share)).sum =
          x.quantity * x.cost_per_share
            + (xs.map (fun l => l.quantity * l.cost_per_share)).sum := by
        rw [(hperm.map (fun l => l.quantity * l.cost_per_share)).sum_eq]
        simp
      have hxs_nn : 0 ≤ (xs.map LotPosition.quantity).sum := by
        refine List.sum_nonneg ?_
        intro y hy
        obtain ⟨l, hl, rfl⟩ := List.mem_map.mp hy
        exact hmem l (List.mem_cons_of_mem _ hl)
      have hx_lt : x.quantity < rem := by
        have hxle : x.quantity ≤ (lots.map LotPosition.quantity).sum := by
          rw [hsum_eq]; linarith
        exact lt_of_le_of_lt hxle hsum
      have hmin : min x.quantity rem = x.quantity := min_eq_left hx_lt.le
      rw [sellLoop, if_pos hrem, e]
      simp only [hmin, sub_self, gt_iff_lt, lt_irrefl, if_false]
      rw [ih xs (rem - x.quantity) (acc + x.quantity * x.cost_per_share)
        (by omega) (fun l hl => hmem l (List.mem_cons_of_mem _ hl))
        (by rw [hsum_eq] at hsum; linarith)]
      have e1 : rem - x.quantity - (xs.map LotPosition.quantity).sum
          = rem - (lots.map LotPosition.quantity).sum := by
        rw [hsum_eq]; ring
      have e2 : acc + x.quantity * x.cost_per_share
            + (xs.map (fun l => l.quantity * l.cost_per_share)).sum
          = acc + (lots.map (fun l => l.quantity * l.cost_per_share)).sum := by
        rw [hcost_eq]; ring
      rw [e1, e2]

/-- A successful `applyTx` never touches the emitted snapshots or the peak. -/
theorem applyTx_state_frame {m : String} {st st' : WalkState} {tx : TransactionInput}
    (h : applyTx m st tx = Except.ok st') :
    st'.snapshots = st.snapshots ∧ st'.peak_hypo = st.peak_hypo := by
  unfold applyTx at h
  by_cases hb : tx.type = "BUY"
  · by_cases hq : tx.quantity = 0
    · rw [if_pos hb, if_pos hq] at h
      cases h
    · rw [if_pos hb, if_neg hq] at h
      have h2 := Except.ok.inj h
      subst h2
      exact ⟨rfl, rfl⟩
  · by_cases hs : tx.type = "SELL"
    · rw [if_neg hb, if_pos hs] at h
      have h2 := Except.ok.inj h
      subst h2
      exact ⟨rfl, rfl⟩
    · rw [if_neg hb, if_neg hs] at h
      have h2 := Except.ok.inj h
      subst h2
      exact ⟨rfl, rfl⟩

/-- A successful transaction batch never touches snapshots or peak. -/
theorem applyTxs_state_frame {m : String} :
    ∀ {txs : List TransactionInput} {st st' : WalkState},
      applyTxs m st txs = Except.ok st' →
      st'.snapshots = st.snapshots ∧ st'.peak_hypo = st.peak_hypo := by
  intro txs
  induction txs with
  | nil =>
    intro st st' h
    simp only [applyTxs, Except.ok.injEq] at h
    subst h
    exact ⟨rfl, rfl⟩
  | cons tx rest ih =>
    intro st st' h
    simp only [applyTxs] at h
    cases e : applyTx m st tx with
    | error msg => rw [e, except_bind_error] at h; cases h
    | ok stm =>
      rw [e, except_bind_ok] at h
      obtain ⟨h1, h2⟩ := applyTx_state_frame e
      obtain ⟨h3, h4⟩ := ih h
      exact ⟨h3.trans h1, h4.trans h2⟩

/-- Each successful day emits exactly one snapshot. -/
theorem dayStep_snapshots_length {symbol m : String} {txs : List TransactionInput}
    {ps : List (Day × ℚ)} {st st' : WalkState} {d : Day}
    (h : dayStep symbol m txs ps st d = Except.ok st') :
    st'.snapshots.length = st.snapshots.length + 1 := by
  simp only [dayStep] at h
  cases e : applyTxs m st (txsOn txs d) with
  | error msg => rw [e, except_bind_error] at h; cases h
  | ok stm =>
    rw [e, except_bind_ok, except_pure] at h
    simp only [Except.ok.injEq] at h
    subst h
    have hs := (applyTxs_state_frame e).1
    simp [hs]

/-- A successful walk emits one snapshot per walked day. -/
theorem walk_snapshots_length {symbol m : String} {txs : List TransactionInput}
    {ps : List (Day × ℚ)} :
    ∀ {days : List Day} {st final : WalkState},
      walk symbol m txs ps st days = Except.ok final →
      final.snapshots.length = st.snapshots.length + days.length := by
  intro days
  induction days with
  | nil =>
    intro st final h
    simp only [walk, Except.ok.injEq] at h
    subst h
    simp
  | cons d ds ih =>
    intro st final h
    simp only [walk] at h
    cases e : dayStep symbol m txs ps st d with
    | error msg => rw [e, except_bind_error] at h; cases h
    | ok st1 =>
      rw [e, except_bind_ok] at h
      have h1 := dayStep_snapshots_length e
      have h2 := ih h
      rw [h2, h1]
      simp only [List.length_cons]
      omega

/-! ## C6: oversold SELLs are silently absorbed -/

/-- **C6.** A SELL whose requested quantity exceeds the total open quantity
raises no error: (1) the SELL branch of the transaction application always
succeeds; (2) the consumption loop (at its call-site fuel bound) consumes
every lot, closing exactly the available quantity — the positive shortfall
stays in `remaining` and is dropped; (3) the walk then continues normally,
emitting one snapshot per price entry. -/
theorem c6_oversell_absorbed :
    (∀ (m : String) (st : WalkState) (tx : TransactionInput),
        tx.type = "SELL" → ∃ st', applyTx m st tx = Except.ok st') ∧
    (∀ (m : String) (lots : List LotPosition) (rem : ℚ),
        (∀ l ∈ lots, 0 ≤ l.quantity) →
        (lots.map LotPosition.quantity).sum < rem →
        sellLoop m (lots.length + 1) rem lots 0 =
          (rem - (lots.map LotPosition.quantity).sum,
           (lots.map (fun l => l.quantity * l.cost_per_share)).sum, [])) ∧
    (∀ (symbol m : String) (txs : List TransactionInput) (ps : List (Day × ℚ))
        (snaps : List Snapshots.DailySnapshot),
        compute_daily symbol txs ps m = Except.ok snaps →
        snaps.length = ps.length) := by
  refine ⟨?_, ?_, ?_⟩
  · intro m st tx h
    unfold applyTx
    rw [h]
    rw [if_neg (show ¬("SELL" = "BUY") by decide), if_pos rfl]
    exact ⟨_, rfl⟩
  · intro m lots rem hq hsum
    have hg := sellLoop_oversell_general m (lots.length + 1) lots rem 0
      (Nat.le_succ _) hq hsum
    simpa using hg
  · intro symbol m txs ps snaps h
    simp only [compute_daily] at h
    cases e : walk symbol m txs ps
        { lots := [], realized_pl := 0, peak_hypo := none, snapshots := [] }
        (List.insertionSort (fun a b => a ≤ b) (ps.map Prod.fst)) with
    | error msg => rw [e, except_bind_error] at h; cases h
    | ok final =>
      rw [e, except_bind_ok, except_pure] at h
      simp only [Except.ok.injEq] at h
      subst h
      have hw := walk_snapshots_length e
      simpa [List.length_insertionSort] using hw

/-- Witness for C6: a SELL against an empty ledger succeeds; overselling a
single 2-share lot with a request of 5 closes the 2 available shares
(shortfall 3) and empties the ledger; an empty-transaction run over one
price day emits one snapshot. -/
theorem c6_oversell_absorbed_witness :
    (∃ st', applyTx "FIFO"
        { lots := [], realized_pl := 0, peak_hypo := none, snapshots := [] }
        { id := 9, date := 3, type := "SELL", quantity := 5, price := 2 } =
        Except.ok st') ∧
    sellLoop "FIFO" 2 5 [{ lot_id := 1, quantity := 2, cost_per_share := 3 }] 0 =
      (3, 6, []) ∧
    ([{ symbol := "A", date := 1, shares_open := 0, market_value_base := 0,
        cost_basis_open_base := 0, unrealized_pl_base := 0,
        realized_pl_to_date_base := 0, hypo_liquidation_pl_base := 0,
        day_opportunity_base := 0, peak_hypo_pl_to_date_base := 0,
        drawdown_from_peak_pct := 0 }] : List Snapshots.DailySnapshot).length =
      ([((1 : Day), (5 : ℚ))]).length := by
  refine ⟨c6_oversell_absorbed.1 "FIFO" _ _ rfl, ?_, ?_⟩
  · have h := c6_oversell_absorbed.2.1 "FIFO"
      [{ lot_id := 1, quantity := 2, cost_per_share := 3 }] 5
      (by intro l hl; simp at hl; subst hl; norm_num)
      (by norm_num)
    norm_num at h
    exact h
  · exact c6_oversell_absorbed.2.2 "A" "FIFO" [] [((1 : Day), (5 : ℚ))] _
      (by with_unfolding_all decide)

/-! ## Walk invariant: peak seeding, recurrence, drawdown formula -/

/-- A successful day step appends exactly one snapshot whose peak follows
the sentinel-guarded recurrence and whose drawdown is the guarded
percentage formula. -/
theorem dayStep_ok_shape {symbol m : String} {txs : List TransactionInput}
    {ps : List (Day × ℚ)} {st st' : WalkState} {d : Day}
    (h : dayStep symbol m txs ps st d = Except.ok st') :
    ∃ snap : Snapshots.DailySnapshot,
      st'.snapshots = st.snapshots ++ [snap] ∧
      st'.peak_hypo = some snap.peak_hypo_pl_to_date_base ∧
      snap.peak_hypo_pl_to_date_base =
        (match st.peak_hypo with
          | none => snap.hypo_liquidation_pl_base
          | some p => max p snap.hypo_liquidation_pl_base) ∧
      snap.drawdown_from_peak_pct =
        (if snap.peak_hypo_pl_to_date_base ≠ 0 then
            (snap.hypo_liquidation_pl_base - snap.peak_hypo_pl_to_date_base)
              / snap.peak_hypo_pl_to_date_base * 100
          else 0) := by
  simp only [dayStep] at h
  cases e : applyTxs m st (txsOn txs d) with
  | error msg => rw [e, except_bind_error] at h; cases h
  | ok stm =>
    rw [e, except_bind_ok, except_pure] at h
    obtain ⟨hsnap, hpeak⟩ := applyTxs_state_frame e
    have h2 := Except.ok.inj h
    subst h2
    refine ⟨_, by rw [← hsnap], rfl, ?_, ?_⟩
    · rw [← hpeak]
      cases hq : stm.peak_hypo with
      | none => simp [max_self]
      | some p => simp
    · rfl

/-- A successful day step preserves the walk invariant. -/
theorem dayStep_inv {symbol m : String} {txs : List TransactionInput}
    {ps : List (Day × ℚ)} {st st' : WalkState} {d : Day}
    (h : dayStep symbol m txs ps st d = Except.ok st')
    (hi : WalkInv st) : WalkInv st' := by
  obtain ⟨snap, h1, h2, h3, h4⟩ := dayStep_ok_shape h
  obtain ⟨i1, i2, i3, i4, i5⟩ := hi
  have hypo_le : snap.hypo_liquidation_pl_base ≤ snap.peak_hypo_pl_to_date_base := by
    rw [h3]
    cases hq : st.peak_hypo with
    | none => simp
    | some p => exact le_max_right _ _
  refine ⟨?_, ?_, ?_, ?_, ?_⟩
  · intro hc
    rw [h2] at hc
    exact Option.noConfusion hc
  · intro p hp
    rw [h2] at hp
    refine ⟨snap, ?_, Option.some.inj hp⟩
    rw [h1]
    exact List.getLast?_concat _
  · intro s0 h0
    rw [h1] at h0
    cases hsn : st.snapshots with
    | nil =>
      rw [hsn] at h0
      simp only [List.nil_append, List.head?_cons, Option.some.injEq] at h0
      subst h0
      have hpn : st.peak_hypo = none := by
        cases hq : st.peak_hypo with
        | none => rfl
        | some p =>
          obtain ⟨s, hs, _⟩ := i2 p hq
          rw [hsn] at hs
          simp at hs
      rw [h3, hpn]
    | cons a rest =>
      rw [hsn] at h0
      simp only [List.cons_append, List.head?_cons, Option.some.injEq] at h0
      subst h0
      exact i3 a (by rw [hsn]; rfl)
  · rw [h1, List.chain'_append]
    refine ⟨i4, List.chain'_singleton _, ?_⟩
    intro x hx y hy
    simp only [List.head?_cons, Option.mem_def, Option.some.injEq] at hy
    subst hy
    cases hq : st.peak_hypo with
    | none =>
      rw [i1 hq] at hx
      simp at hx
    | some p =>
      obtain ⟨s, hs, hsp⟩ := i2 p hq
      rw [Option.mem_def] at hx
      rw [hx] at hs
      have hxe := Option.some.inj hs
      constructor
      · rw [h3, hq, hxe, hsp]
      · rw [hxe, hsp, h3, hq]
        exact le_max_left _ _
  · rw [h1]
    intro s hs
    rcases List.mem_append.mp hs with hmem | hmem
    · exact i5 s hmem
    · simp only [List.mem_singleton] at hmem
      subst hmem
      exact ⟨hypo_le, fun hne => by rw [h4, if_pos hne],
        fun h0 => by rw [h4, if_neg (by simp [h0])]⟩

/-- A successful walk preserves the walk invariant. -/
theorem walk_inv {symbol m : String} {txs : List TransactionInput}
    {ps : List (Day × ℚ)} :
    ∀ {days : List Day} {st final : WalkState},
      walk symbol m txs ps st days = Except.ok final → WalkInv st → WalkInv final := by
  intro days
  induction days with
  | nil =>
    intro st final h hi
    simp only [walk, Except.ok.injEq] at h
    subst h
    exact hi
  | cons d ds ih =>
    intro st final h hi
    simp only [walk] at h
    cases e : dayStep symbol m txs ps st d with
    | error msg => rw [e, except_bind_error] at h; cases h
    | ok st1 =>
      rw [e, except_bind_ok] at h
      exact ih h (dayStep_inv e hi)

/-- The sequence returned by a successful `compute_daily` run satisfies the
peak-seeding head property, the peak recurrence chain and the per-snapshot
drawdown facts. -/
theorem compute_daily_prop {symbol m : String} {txs : List TransactionInput}
    {ps : List (Day × ℚ)} {snaps : List Snapshots.DailySnapshot}
    (h : compute_daily symbol txs ps m = Except.ok snaps) :
    (∀ s0, snaps.head? = some s0 →
      s0.peak_hypo_pl_to_date_base = s0.hypo_liquidation_pl_base) ∧
    List.Chain' peakStep snaps ∧ (∀ s ∈ snaps, SnapInv s) := by
  simp only [compute_daily] at h
  cases e : walk symbol m txs ps
      { lots := [], realized_pl := 0, peak_hypo := none, snapshots := [] }
      (List.insertionSort (fun a b => a ≤ b) (ps.map Prod.fst)) with
  | error msg => rw [e, except_bind_error] at h; cases h
  | ok final =>
    rw [e, except_bind_ok, except_pure] at h
    simp only [Except.ok.injEq] at h
    subst h
    have hinit : WalkInv { lots := [], realized_pl := 0, peak_hypo := none, snapshots := [] } :=
      ⟨fun _ => rfl, fun p hp => Option.noConfusion hp,
       fun s0 h0 => Option.noConfusion h0, List.chain'_nil,
       fun s hs => absurd hs (List.not_mem_nil s)⟩
    have hw := walk_inv e hinit
    exact ⟨hw.2.2.1, hw.2.2.2.1, hw.2.2.2.2⟩

/-! ## C2: peak seeding and recurrence -/

/-- **C2.** In every successful `compute_daily` run, the first snapshot's
peak equals its own hypothetical liquidation P/L (the sentinel is replaced
by the first observed value before any emission), each subsequent peak is
`max (previous peak) (current hypothetical P/L)`, and hence the peak is
non-decreasing along the sequence. -/
theorem c2_peak_seeding_and_recurrence :
    ∀ (symbol lot_method : String) (transactions : List TransactionInput)
      (price_series : List (Day × ℚ)) (snaps : List Snapshots.DailySnapshot),
      compute_daily symbol transactions price_series lot_method = Except.ok snaps →
      (∀ s0, snaps.head? = some s0 →
        s0.peak_hypo_pl_to_date_base = s0.hypo_liquidation_pl_base) ∧
      List.Chain' (fun a b => b.peak_hypo_pl_to_date_base =
        max a.peak_hypo_pl_to_date_base b.hypo_liquidation_pl_base) snaps ∧
      List.Chain' (fun a b =>
        a.peak_hypo_pl_to_date_base ≤ b.peak_hypo_pl_to_date_base) snaps := by
  intro symbol m txs ps snaps h
  obtain ⟨hh, hc, -⟩ := compute_daily_prop h
  exact ⟨hh, hc.imp (fun a b hab => hab.1), hc.imp (fun a b hab => hab.2)⟩

set_option maxRecDepth 40000 in
/-- Witness for C2: the peak is non-decreasing on the concrete two-day run
of `negTxs`/`negPrices`. -/
theorem c2_peak_seeding_and_recurrence_witness :
    List.Chain' (fun a b : Snapshots.DailySnapshot =>
      a.peak_hypo_pl_to_date_base ≤ b.peak_hypo_pl_to_date_base)
      [negSnap1, negSnap2] :=
  (c2_peak_seeding_and_recurrence "AAA" "FIFO" negTxs negPrices
    [negSnap1, negSnap2] (by with_unfolding_all decide)).2.2

/-! ## C3 (amended): drawdown bounds -/

/-- **C3 (amended).** For every emitted snapshot with strictly positive
peak, the drawdown is nonpositive; it is at least −100 (hence inside
[−100, 0]) whenever the day's hypothetical liquidation P/L is
nonnegative; and it falls strictly below −100 whenever that P/L is
negative.  (The original claim's unconditional lower bound of −100 is
therefore exactly the nonnegative-P/L case — see the counterexample.) -/
theorem c3_amended_drawdown_bounds :
    ∀ (symbol lot_method : String) (txs : List TransactionInput)
      (ps : List (Day × ℚ)) (snaps : List Snapshots.DailySnapshot),
      compute_daily symbol txs ps lot_method = Except.ok snaps →
      ∀ s ∈ snaps, 0 < s.peak_hypo_pl_to_date_base →
        s.drawdown_from_peak_pct ≤ 0 ∧
        (0 ≤ s.hypo_liquidation_pl_base → -100 ≤ s.drawdown_from_peak_pct) ∧
        (s.hypo_liquidation_pl_base < 0 → s.drawdown_from_peak_pct < -100) := by
  intro symbol m txs ps snaps h s hs hpk
  obtain ⟨-, -, hinv⟩ := compute_daily_prop h
  obtain ⟨hle, hfor, -⟩ := hinv s hs
  have hne : s.peak_hypo_pl_to_date_base ≠ 0 := ne_of_gt hpk
  rw [hfor hne]
  refine ⟨?_, ?_, ?_⟩
  · rw [div_mul_eq_mul_div, div_le_iff hpk]
    nlinarith
  · intro hge
    rw [div_mul_eq_mul_div, le_div_iff hpk]
    nlinarith
  · intro hneg
    rw [div_mul_eq_mul_div, div_lt_iff hpk]
    nlinarith

set_option maxRecDepth 40000 in
/-- Witness for C3 (amended) on the concrete `negTxs`/`negPrices` run:
day 1 (peak 1000, hypothetical P/L 1000) stays inside [−100, 0], and
day 2 (peak 1000, hypothetical P/L −900) falls strictly below −100. -/
theorem c3_amended_drawdown_bounds_witness :
    (negSnap1.drawdown_from_peak_pct ≤ 0 ∧
      -100 ≤ negSnap1.drawdown_from_peak_pct) ∧
    negSnap2.drawdown_from_peak_pct < -100 := by
  have h1 := c3_amended_drawdown_bounds "AAA" "FIFO" negTxs negPrices
    [negSnap1, negSnap2] (by with_unfolding_all decide) negSnap1
    (by simp) (by norm_num [negSnap1])
  have h2 := c3_amended_drawdown_bounds "AAA" "FIFO" negTxs negPrices
    [negSnap1, negSnap2] (by with_unfolding_all decide) negSnap2
    (by simp) (by norm_num [negSnap2])
  exact ⟨⟨h1.1, h1.2.1 (by norm_num [negSnap1])⟩, h2.2.2 (by norm_num [negSnap2])⟩

/-! ## Pipeline drawdown facts and C4 (amended) -/

theorem except_bind_eq_ok {α β : Type} {x : Except String α} {f : α → Except String β}
    {b : β} (h : (x >>= f) = Except.ok b) : ∃ a, x = Except.ok a ∧ f a = Except.ok b := by
  cases x with
  | error m => rw [except_bind_error] at h; cases h
  | ok a => rw [except_bind_ok] at h; exact ⟨a, rfl, h⟩

/-- A successful pipeline day step emits a snapshot whose drawdown is the
guarded unscaled fraction. -/
theorem pipeDayStep_snapInv {fx : Option FXRateProvider} {base : String}
    {bps flat : ℚ} {symbol : String} {bars : List PriceBar} {st : SymState}
    {txs : List Transaction} {d : Day}
    {r : SymState × List Transaction × Pipeline.DailySnapshot}
    (h : pipeDayStep fx base bps flat symbol bars st txs d = Except.ok r) :
    PipeSnapInv r.2.2 := by
  simp only [pipeDayStep] at h
  obtain ⟨st1, e1, h⟩ := except_bind_eq_ok h
  obtain ⟨bar, e2, h⟩ := except_bind_eq_ok h
  obtain ⟨rate, e3, h⟩ := except_bind_eq_ok h
  rw [except_pure] at h
  have h2 := Except.ok.inj h
  subst h2
  exact ⟨fun hne => if_neg hne, fun hz => if_pos hz⟩

/-- Every snapshot accumulated by the pipeline timeline loop satisfies the
drawdown fact. -/
theorem pipeWalk_snapInv {fx : Option FXRateProvider} {base : String}
    {bps flat : ℚ} {symbol : String} {bars : List PriceBar} :
    ∀ {days : List Day} {st : SymState} {txs : List Transaction}
      {acc out : List Pipeline.DailySnapshot},
      pipeWalk fx base bps flat symbol bars st txs days acc = Except.ok out →
      (∀ s ∈ acc, PipeSnapInv s) → ∀ s ∈ out, PipeSnapInv s := by
  intro days
  induction days with
  | nil =>
    intro st txs acc out h hacc
    simp only [pipeWalk, Except.ok.injEq] at h
    subst h
    exact hacc
  | cons d ds ih =>
    intro st txs acc out h hacc
    simp only [pipeWalk] at h
    obtain ⟨r, e, h⟩ := except_bind_eq_ok h
    refine ih h ?_
    intro s hs
    rcases List.mem_append.mp hs with hm | hm
    · exact hacc s hm
    · simp only [List.mem_singleton] at hm
      subst hm
      exact pipeDayStep_snapInv e

/-- Every snapshot accumulated by the symbol loop satisfies the drawdown
fact. -/
theorem symbolLoop_snapInv {transactions : List Transaction}
    {prices : List PriceBar} {fx : Option FXRateProvider} {base : String}
    {bps flat : ℚ} :
    ∀ {symbols : List String} {acc out : List Pipeline.DailySnapshot},
      symbolLoop transactions prices fx base bps flat symbols acc = Except.ok out →
      (∀ s ∈ acc, PipeSnapInv s) → ∀ s ∈ out, PipeSnapInv s := by
  intro symbols
  induction symbols with
  | nil =>
    intro acc out h hacc
    simp only [symbolLoop, Except.ok.injEq] at h
    subst h
    exact hacc
  | cons sym syms ih =>
    intro acc out h hacc
    simp only [symbolLoop] at h
    split at h
    · exact ih h hacc
    · obtain ⟨snaps, hw, h2⟩ := except_bind_eq_ok h
      refine ih h2 ?_
      intro s hs
      rcases List.mem_append.mp hs with hm | hm
      · exact hacc s hm
      · exact pipeWalk_snapInv hw (fun s hs => absurd hs (List.not_mem_nil s)) s hm

/-- Every snapshot of a successful `build_daily_snapshots` run satisfies
the guarded-fraction drawdown fact. -/
theorem build_daily_snapshots_snapInv {transactions : List Transaction}
    {prices : List PriceBar} {fx : Option FXRateProvider} {base : String}
    {bps flat : ℚ} {snaps : List Pipeline.DailySnapshot}
    (h : build_daily_snapshots transactions prices fx base bps flat = Except.ok snaps) :
    ∀ s ∈ snaps, PipeSnapInv s := by
  simp only [build_daily_snapshots] at h
  obtain ⟨raw, hl, h2⟩ := except_bind_eq_ok h
  rw [except_pure] at h2
  have h3 := Except.ok.inj h2
  subst h3
  intro s hs
  have hs2 : s ∈ raw := (List.perm_insertionSort snapKeyLE raw).mem_iff.mp hs
  exact symbolLoop_snapInv hl (fun s hs => absurd hs (List.not_mem_nil s)) s hs2

/-- **C4 (amended).** In the Decimal engine (`compute_daily`) every emitted
snapshot's drawdown equals `(current − peak) / peak × 100` when the peak is
nonzero and exactly 0 when the peak is zero; in the float pipeline
(`build_daily_snapshots`) the drawdown field instead holds the *unscaled*
fraction `(current − peak) / peak` under the same zero guard.  In both,
the division is guarded so a zero peak can never be divided by. -/
theorem c4_amended_drawdown_formula :
    (∀ (symbol lot_method : String) (txs : List TransactionInput)
        (ps : List (Day × ℚ)) (snaps : List Snapshots.DailySnapshot),
        compute_daily symbol txs ps lot_method = Except.ok snaps →
        ∀ s ∈ snaps,
          (s.peak_hypo_pl_to_date_base ≠ 0 →
            s.drawdown_from_peak_pct =
              (s.hypo_liquidation_pl_base - s.peak_hypo_pl_to_date_base)
                / s.peak_hypo_pl_to_date_base * 100) ∧
          (s.peak_hypo_pl_to_date_base = 0 → s.drawdown_from_peak_pct = 0)) ∧
    (∀ (transactions : List Transaction) (prices : List PriceBar)
        (fx : Option FXRateProvider) (base : String) (bps flat : ℚ)
        (snaps : List Pipeline.DailySnapshot),
        build_daily_snapshots transactions prices fx base bps flat = Except.ok snaps →
        ∀ s ∈ snaps,
          (s.peak_hypo_pl_to_date_base ≠ 0 →
            s.drawdown_from_peak_pct =
              (s.hypo_liquidation_pl_base - s.peak_hypo_pl_to_date_base)
                / s.peak_hypo_pl_to_date_base) ∧
          (s.peak_hypo_pl_to_date_base = 0 → s.drawdown_from_peak_pct = 0)) := by
  constructor
  · intro symbol m txs ps snaps h s hs
    obtain ⟨-, -, hinv⟩ := compute_daily_prop h
    obtain ⟨-, h1, h2⟩ := hinv s hs
    exact ⟨h1, h2⟩
  · intro t p fx b bps flat snaps h s hs
    exact build_daily_snapshots_snapInv h s hs

set_option maxRecDepth 40000 in
/-- Witness for C4 (amended) at concrete runs of both engines. -/
theorem c4_amended_drawdown_formula_witness :
    negSnap2.drawdown_from_peak_pct =
      (negSnap2.hypo_liquidation_pl_base - negSnap2.peak_hypo_pl_to_date_base)
        / negSnap2.peak_hypo_pl_to_date_base * 100 ∧
    fracSnap2.drawdown_from_peak_pct =
      (fracSnap2.hypo_liquidation_pl_base - fracSnap2.peak_hypo_pl_to_date_base)
        / fracSnap2.peak_hypo_pl_to_date_base := by
  constructor
  · exact (c4_amended_drawdown_formula.1 "AAA" "FIFO" negTxs negPrices
      [negSnap1, negSnap2] (by with_unfolding_all decide) negSnap2 (by simp)).1
      (by norm_num [negSnap2])
  · exact (c4_amended_drawdown_formula.2 fracTxs fracPrices none "USD" 0 0
      [fracSnap1, fracSnap2] (by with_unfolding_all decide) fracSnap2 (by simp)).1
      (by norm_num [fracSnap2])


/-! ## Walk congruence and C10 -/

/-- Inserting a transaction dated off `d` does not change the day-`d`
transaction group. -/
theorem txsOn_insert_unpriced {txs1 txs2 : List TransactionInput}
    {tx : TransactionInput} {d : Day} (hne : tx.date ≠ d) :
    txsOn (txs1 ++ tx :: txs2) d = txsOn (txs1 ++ txs2) d := by
  unfold txsOn
  congr 1
  simp [List.filter_append, List.filter_cons, beq_iff_eq, hne]

/-- The walk depends on the transactions and the price series only through
the per-day groups and the per-day price lookups. -/
theorem walk_congr {symbol m : String} {txs txs' : List TransactionInput}
    {ps ps' : List (Day × ℚ)} :
    ∀ {days : List Day} {st : WalkState},
      (∀ d ∈ days, txsOn txs d = txsOn txs' d ∧
        List.lookup d ps = List.lookup d ps') →
      walk symbol m txs ps st days = walk symbol m txs' ps' st days := by
  intro days
  induction days with
  | nil => intro st hcong; rfl
  | cons d ds ih =>
    intro st h
    have hd := h d (List.mem_cons_self d ds)
    have hstep : dayStep symbol m txs ps st d = dayStep symbol m txs' ps' st d := by
      simp only [dayStep, hd.1, hd.2]
    simp only [walk]
    rw [hstep]
    cases e : dayStep symbol m txs' ps' st d with
    | error msg => rfl
    | ok st1 =>
      rw [except_bind_ok, except_bind_ok]
      exact ih (fun d2 hd2 => h d2 (List.mem_cons_of_mem _ hd2))

/-- **C10.** A transaction whose date has no price-series entry is dropped
outright by `compute_daily`: inserting it anywhere in the transaction list
leaves the returned snapshot sequence (and any error) completely
unchanged. -/
theorem c10_unpriced_transaction_dropped :
    ∀ (symbol lot_method : String) (txs1 txs2 : List TransactionInput)
      (tx : TransactionInput) (ps : List (Day × ℚ)),
      tx.date ∉ ps.map Prod.fst →
      compute_daily symbol (txs1 ++ tx :: txs2) ps lot_method =
        compute_daily symbol (txs1 ++ txs2) ps lot_method := by
  intro symbol m txs1 txs2 tx ps hmem
  simp only [compute_daily]
  have hw : walk symbol m (txs1 ++ tx :: txs2) ps
      { lots := [], realized_pl := 0, peak_hypo := none, snapshots := [] }
      (List.insertionSort (fun a b => a ≤ b) (ps.map Prod.fst)) =
      walk symbol m (txs1 ++ txs2) ps
      { lots := [], realized_pl := 0, peak_hypo := none, snapshots := [] }
      (List.insertionSort (fun a b => a ≤ b) (ps.map Prod.fst)) := by
    apply walk_congr
    intro d hd
    have hdmem : d ∈ ps.map Prod.fst :=
      (List.perm_insertionSort (fun a b => a ≤ b) (ps.map Prod.fst)).mem_iff.mp hd
    have hne : tx.date ≠ d := fun hcon => hmem (hcon ▸ hdmem)
    exact ⟨txsOn_insert_unpriced hne, rfl⟩
  rw [hw]

/-- Witness for C10: a BUY dated day 9, absent from the price series
`[(1, 3)]`, changes nothing. -/
theorem c10_unpriced_transaction_dropped_witness :
    compute_daily "AAA"
      ([] ++ { id := 7, date := 9, type := "BUY", quantity := 5, price := 4 } :: [])
      [(1, 3)] "FIFO" =
      compute_daily "AAA" ([] ++ []) [(1, 3)] "FIFO" :=
  c10_unpriced_transaction_dropped "AAA" "FIFO" [] []
    { id := 7, date := 9, type := "BUY", quantity := 5, price := 4 }
    [(1, 3)] (by decide)

/-! ## C8: determinism / idempotence up to input representation -/

/-- Association-list lookup is representation-independent: permuting a
list with duplicate-free keys does not change any lookup. -/
theorem lookup_perm_nodup {d : Day} :
    ∀ {ps ps' : List (Day × ℚ)}, List.Perm ps ps' →
      (ps.map Prod.fst).Nodup →
      List.lookup d ps = List.lookup d ps' := by
  intro ps ps' hp
  induction hp with
  | nil => intro _; rfl
  | cons x hp ih =>
    intro hnd
    simp only [List.map_cons, List.nodup_cons] at hnd
    simp only [List.lookup]
    rw [ih hnd.2]
  | swap x y l =>
    intro hnd
    simp only [List.map_cons, List.nodup_cons, List.mem_cons] at hnd
    have hyx : y.1 ≠ x.1 := fun hc => hnd.1 (Or.inl hc)
    by_cases h1 : d = y.1 <;> by_cases h2 : d = x.1
    · exact absurd (by rw [← h1]; exact h2) hyx
    · have e1 : (d == y.1) = true := beq_iff_eq.mpr h1
      have e2 : (d == x.1) = false := beq_eq_false_iff_ne.mpr h2
      simp [List.lookup, e1, e2]
    · have e1 : (d == y.1) = false := beq_eq_false_iff_ne.mpr h1
      have e2 : (d == x.1) = true := beq_iff_eq.mpr h2
      simp [List.lookup, e1, e2]
    · have e1 : (d == y.1) = false := beq_eq_false_iff_ne.mpr h1
      have e2 : (d == x.1) = false := beq_eq_false_iff_ne.mpr h2
      simp [List.lookup, e1, e2]
  | trans h1 h2 ih1 ih2 =>
    intro hnd
    have hnd2 := ((h1.map Prod.fst).nodup_iff).mp hnd
    exact (ih1 hnd).trans (ih2 hnd2)

/-- The sorted walk dates depend only on the set of price dates. -/
theorem sortedDays_perm {ps ps' : List (Day × ℚ)} (hp : List.Perm ps ps') :
    List.insertionSort (fun a b => a ≤ b) (ps.map Prod.fst) =
      List.insertionSort (fun a b => a ≤ b) (ps'.map Prod.fst) := by
  have hperm : List.Perm
      (List.insertionSort (fun a b => a ≤ b) (ps.map Prod.fst))
      (List.insertionSort (fun a b => a ≤ b) (ps'.map Prod.fst)) :=
    (List.perm_insertionSort _ _).trans
      ((hp.map Prod.fst).trans (List.perm_insertionSort _ _).symm)
  exact List.eq_of_perm_of_sorted hperm
    (List.sorted_insertionSort _ _) (List.sorted_insertionSort _ _)

/-- The per-day transaction groups depend only on the multiset of
transactions, provided the `(date, id)` sort keys are duplicate-free. -/
theorem txsOn_perm {txs txs' : List TransactionInput} (hp : List.Perm txs txs')
    (hnd : (txs.map (fun t => (t.date, t.id))).Nodup) (d : Day) :
    txsOn txs d = txsOn txs' d := by
  unfold txsOn
  have hf : List.Perm (txs.filter (fun t => t.date == d))
      (txs'.filter (fun t => t.date == d)) := hp.filter _
  have hnd1 : ((txs.filter (fun t => t.date == d)).map
      (fun t => (t.date, t.id))).Nodup :=
    hnd.sublist ((List.filter_sublist txs).map _)
  have hnd2 : ((txs'.filter (fun t => t.date == d)).map
      (fun t => (t.date, t.id))).Nodup := (hf.map _).nodup_iff.mp hnd1
  have hperm : List.Perm
      (List.insertionSort txKeyLE (txs.filter (fun t => t.date == d)))
      (List.insertionSort txKeyLE (txs'.filter (fun t => t.date == d))) :=
    (List.perm_insertionSort _ _).trans (hf.trans (List.perm_insertionSort _ _).symm)
  have hs1 : List.Sorted txKeyLE
      (List.insertionSort txKeyLE (txs.filter (fun t => t.date == d))) :=
    List.sorted_insertionSort _ _
  have hs2 : List.Sorted txKeyLE
      (List.insertionSort txKeyLE (txs'.filter (fun t => t.date == d))) :=
    List.sorted_insertionSort _ _
  have hk1 : ((List.insertionSort txKeyLE
      (txs.filter (fun t => t.date == d))).map (fun t => (t.date, t.id))).Nodup :=
    ((List.perm_insertionSort _ _).map _).nodup_iff.mpr hnd1
  have hk2 : ((List.insertionSort txKeyLE
      (txs'.filter (fun t => t.date == d))).map (fun t => (t.date, t.id))).Nodup :=
    ((List.perm_insertionSort _ _).map _).nodup_iff.mpr hnd2
  have hpair1 := (List.pairwise_map.mp hk1).and hs1
  have hpair2 := (List.pairwise_map.mp hk2).and hs2
  haveI : IsAntisymm TransactionInput
      (fun a b => (a.date, a.id) ≠ (b.date, b.id) ∧ txKeyLE a b) := by
    refine ⟨fun a b hab hba => ?_⟩
    exfalso
    apply hab.1
    have h1 := hab.2
    have h2 := hba.2
    rcases h1 with h1 | ⟨h1a, h1b⟩ <;> rcases h2 with h2 | ⟨h2a, h2b⟩
    · exact absurd h2 (Nat.lt_asymm h1)
    · rw [h2a] at h1
      exact absurd h1 (lt_irrefl _)
    · rw [h1a] at h2
      exact absurd h2 (lt_irrefl _)
    · exact Prod.ext h1a (Nat.le_antisymm h1b h2b)
  exact List.eq_of_perm_of_sorted hperm hpair1 hpair2

/-- **C8.** `compute_daily` is deterministic and idempotent: it depends
only on the value of its inputs — the multiset of transactions (with
duplicate-free `(date, id)` keys, as ids are unique in the source) and the
finite price map (duplicate-free dates, as Python dict keys are) — so two
runs over identical inputs return identical snapshot sequences, element
for element and field for field. -/
theorem c8_deterministic_idempotent :
    ∀ (symbol lot_method : String) (txs txs' : List TransactionInput)
      (ps ps' : List (Day × ℚ)),
      List.Perm txs txs' →
      (txs.map (fun t => (t.date, t.id))).Nodup →
      List.Perm ps ps' →
      (ps.map Prod.fst).Nodup →
      compute_daily symbol txs ps lot_method =
        compute_daily symbol txs' ps' lot_method := by
  intro symbol m txs txs' ps ps' hpt hndt hpp hndp
  simp only [compute_daily]
  rw [sortedDays_perm hpp]
  rw [walk_congr (fun d _ => ⟨txsOn_perm hpt hndt d, lookup_perm_nodup hpp hndp⟩)]

/-- Witness for C8: reversing both the transaction list and the price
association list leaves the run unchanged. -/
theorem c8_deterministic_idempotent_witness :
    compute_daily "AAA"
      [{ id := 1, date := 1, type := "BUY", quantity := 3, price := 2 },
       { id := 2, date := 2, type := "SELL", quantity := 1, price := 4 }]
      [(1, 5), (2, 6)] "FIFO" =
    compute_daily "AAA"
      [{ id := 2, date := 2, type := "SELL", quantity := 1, price := 4 },
       { id := 1, date := 1, type := "BUY", quantity := 3, price := 2 }]
      [(2, 6), (1, 5)] "FIFO" :=
  c8_deterministic_idempotent "AAA" "FIFO" _ _ _ _
    (List.Perm.swap _ _ _) (by decide) (List.Perm.swap _ _ _) (by decide)

end SmartAdvisor
